import Mathlib

/-!
Verification development for the Investment-Tracking app (`src/app.py`).

The Python source is shallowly embedded: Python `float` values are modelled
as exact rationals (ℚ), Python `datetime` values as rational day numbers
(whole values are midnights; the fractional part is the time of day),
Python `dict` (insertion-ordered) as association lists `List (String × ℚ)`,
and fallible parsing as `Option`.
-/

/-! ## String-to-number parsing (model of Python `float(...)` on strings) -/

/-- Numeric value of a decimal digit character. -/
def digitVal (c : Char) : ℕ := c.toNat - 48

/-- Value of a list of decimal digit characters, most significant first. -/
def natFromDigits (cs : List Char) : ℕ := cs.foldl (fun acc c => acc * 10 + digitVal c) 0

/-- Parse a non-empty all-digit character list; `none` otherwise. -/
def charDigits (cs : List Char) : Option ℕ :=
  if cs.isEmpty then none
  else if cs.all Char.isDigit then some (natFromDigits cs) else none

/-- Strip one leading sign character; returns (isNegative, rest). -/
def stripSign : List Char → Bool × List Char
  | '+' :: cs => (false, cs)
  | '-' :: cs => (true, cs)
  | cs => (false, cs)

/-- Python whitespace (the set `str.isspace` recognises and `str.strip` and
`float` remove): ASCII space, TAB, LF, VT, FF, CR, the separator controls
1C–1F, NEL, NBSP, and the Unicode space and line/paragraph separators. -/
def pyIsSpace (c : Char) : Bool :=
  c == ' ' || c == '\t' || c == '\n' || c == '\x0b' || c == '\x0c' || c == '\r' ||
  (0x1c ≤ c.toNat && c.toNat ≤ 0x1f) || c.toNat == 0x85 || c.toNat == 0xa0 ||
  c.toNat == 0x1680 || (0x2000 ≤ c.toNat && c.toNat ≤ 0x200a) ||
  c.toNat == 0x2028 || c.toNat == 0x2029 || c.toNat == 0x202f ||
  c.toNat == 0x205f || c.toNat == 0x3000

/-- Model of Python `str.strip()` with no argument: drop whitespace from
both ends. -/
def pyStrip (s : String) : String :=
  String.mk (((s.data.dropWhile pyIsSpace).reverse.dropWhile pyIsSpace).reverse)

/-- Continuation of an underscore-grouped digit run (PEP 515): after a
digit, either the run ends, or a digit follows, or a single underscore
followed by a digit. -/
def underscoreRest : List Char → Bool
  | [] => true
  | '_' :: c :: rest => c.isDigit && underscoreRest rest
  | ['_'] => false
  | c :: rest => c.isDigit && underscoreRest rest

/-- Non-empty digit run with optional single underscores strictly between
digits, as Python numeric literals and `float()` accept. -/
def underscoreDigits (cs : List Char) : Bool :=
  match cs with
  | [] => false
  | c :: rest => c.isDigit && underscoreRest rest

/-- Remove the grouping underscores before reading the digits. -/
def stripUnders (cs : List Char) : List Char := cs.filter (fun c => c != '_')

/-- Value of an underscore-grouped digit run; `none` if malformed. -/
def digitsU (cs : List Char) : Option ℕ :=
  if underscoreDigits cs then some (natFromDigits (stripUnders cs)) else none

/-- Parse the exponent digits (after the `e`), with optional sign;
underscore grouping is allowed there too. -/
def parseExpPart (cs : List Char) : Option ℤ :=
  let p := stripSign cs
  (digitsU p.2).map (fun n => if p.1 then -(n : ℤ) else (n : ℤ))

/-- Parse an unsigned mantissa: `digits`, `digits.digits`, `digits.` or
`.digits`, each digit run optionally underscore-grouped; returns the
digits' value together with the number of fraction digits (the mantissa
denotes `value / 10 ^ fracDigits`). -/
def parseMantissa (cs : List Char) : Option (ℕ × ℕ) :=
  match cs.span (fun c => c != '.') with
  | (ip, []) => (digitsU ip).map (fun n => (n, 0))
  | (ip, _ :: fp) =>
      if (ip.isEmpty || underscoreDigits ip) && (fp.isEmpty || underscoreDigits fp) &&
          !(ip.isEmpty && fp.isEmpty) then
        some (natFromDigits (stripUnders (ip ++ fp)), (stripUnders fp).length)
      else none

/-- Result of Python `float(s)`: a finite value (kept as an exact rational;
the underlying double's 53-bit rounding of in-range values is idealized
away), an infinity, or a NaN. -/
inductive PyFloat where
  | finite (q : ℚ)
  | pinf
  | ninf
  | nan
deriving DecidableEq, Repr

/-- Smallest magnitude a decimal literal may have and still convert to an
IEEE-754 double as infinite: 2^1024 − 2^970 (ties round up to 2^1024),
written out as a numeral. -/
def dblOverflow : ℚ := mkRat 179769313486231580793728971405303415079934132710037826936173778980444968292764750946649017977587207096330286416692887910946555547851940402630657488671505820681908902000708383676273854845817711531764475730270069855571366959622842914819860834936475292719074168444365510704342711559699508093042880177904174497792 1

/-- Largest magnitude that converts to the double 0.0: 2^(−1075), half the
smallest subnormal (the tie rounds to even, that is to zero); the
denominator is 2^1075 written out as a numeral. -/
def dblUnderflow : ℚ := mkRat 1 404804506614621236704990693437834614099113299528284236713802716054860679135990693783920767402874248990374155728633623822779617474771586953734026799881477019843034848553132722728933815484186432682479535356945490137124014966849385397236206711298319112681620113024717539104666829230461005064372655017292012526615415482186989568

/-- Collapse an exact decimal value to the double-conversion outcome at the
extremes: overflow to a signed infinity, underflow to zero, and everything
in between kept exact (idealizing the 53-bit rounding). -/
def doubleClamp (v : ℚ) : PyFloat :=
  if dblOverflow ≤ v then .pinf
  else if v ≤ -dblOverflow then .ninf
  else if -dblUnderflow ≤ v ∧ v ≤ dblUnderflow then .finite 0
  else .finite v

/-- Projection of a parsed float into the ℚ-valued parts of the embedding;
a non-finite float has no exact-rational counterpart and is outside the
embedding (mapped to 0 here — every claim about created records pins the
parse result to a finite value first). -/
def PyFloat.toRat : PyFloat → ℚ
  | .finite q => q
  | _ => 0

/-- Python comparison `x <= c` for a float `x` against a finite constant:
false for NaN (all NaN comparisons are false) and for +inf. -/
def PyFloat.leB (x : PyFloat) (c : ℚ) : Bool :=
  match x with
  | .finite v => decide (v ≤ c)
  | .ninf => true
  | .pinf => false
  | .nan => false

/-- Python comparison `x < c` against a finite constant. -/
def PyFloat.ltB (x : PyFloat) (c : ℚ) : Bool :=
  match x with
  | .finite v => decide (v < c)
  | .ninf => true
  | .pinf => false
  | .nan => false

/-- Python comparison `x > c` against a finite constant. -/
def PyFloat.gtB (x : PyFloat) (c : ℚ) : Bool :=
  match x with
  | .finite v => decide (c < v)
  | .ninf => false
  | .pinf => true
  | .nan => false

/-- Model of Python `float(s)`: surrounding whitespace is stripped, then an
optional sign followed by `inf`/`infinity`/`nan` (case-insensitive) or an
underscore-grouped decimal mantissa with optional exponent; out-of-range
decimals overflow to a signed infinity or underflow to zero. (Python also
maps every Unicode Numeric_Type=Decimal digit to its ASCII counterpart
before converting; that digit table is not modelled — only ASCII digits
are, while the Unicode whitespace stripping is modelled in `pyIsSpace`.) -/
def parseFloat (s : String) : Option PyFloat :=
  let p := stripSign (pyStrip s).data
  let low := p.2.map Char.toLower
  if low = ['i', 'n', 'f'] ∨ low = ['i', 'n', 'f', 'i', 'n', 'i', 't', 'y'] then
    some (if p.1 then .ninf else .pinf)
  else if low = ['n', 'a', 'n'] then some .nan
  else
    let q := p.2.span (fun c => c != 'e' && c != 'E')
    let expo : Option ℤ := match q.2 with
      | [] => some 0
      | _ :: ecs => parseExpPart ecs
    match parseMantissa q.1, expo with
    | some md, some e =>
        let sgn : ℤ := if p.1 then -1 else 1
        let shift : ℤ := e - (md.2 : ℤ)
        some (doubleClamp
          (if 0 ≤ shift then
            mkRat (sgn * (md.1 : ℤ) * ((10 ^ shift.toNat : ℕ) : ℤ)) 1
          else mkRat (sgn * (md.1 : ℤ)) (10 ^ (-shift).toNat)))
    | _, _ => none

/-! ## Calendar dates (model of Python `datetime.strptime(s, "%Y-%m-%d")`) -/

/-- Calendar date, as produced by parsing a `YYYY-MM-DD` form field. -/
structure Date where
  year : ℕ
  month : ℕ
  day : ℕ
deriving DecidableEq, Repr

/-- Gregorian leap-year test (as used by Python's `datetime`). -/
def isLeap (y : ℕ) : Bool := y % 4 == 0 && (y % 100 != 0 || y % 400 == 0)

/-- Number of days in a month (0 for an invalid month index). -/
def daysInMonth (y m : ℕ) : ℕ :=
  match m with
  | 1 => 31
  | 2 => if isLeap y then 29 else 28
  | 3 => 31
  | 4 => 30
  | 5 => 31
  | 6 => 30
  | 7 => 31
  | 8 => 31
  | 9 => 30
  | 10 => 31
  | 11 => 30
  | 12 => 31
  | _ => 0

/-- Days in the months of year `y` strictly before month `m`. -/
def daysBeforeMonth (y m : ℕ) : ℕ :=
  let base := match m with
    | 1 => 0
    | 2 => 31
    | 3 => 59
    | 4 => 90
    | 5 => 120
    | 6 => 151
    | 7 => 181
    | 8 => 212
    | 9 => 243
    | 10 => 273
    | 11 => 304
    | 12 => 334
    | _ => 0
  if 3 ≤ m ∧ isLeap y then base + 1 else base

/-- Proleptic-Gregorian ordinal of a date (0001-01-01 is day 1), matching
Python's `date.toordinal`; midnight datetimes differ by whole days. -/
def Date.toOrdinal (d : Date) : ℕ :=
  365 * (d.year - 1) + ((d.year - 1) / 4 - (d.year - 1) / 100 + (d.year - 1) / 400)
    + daysBeforeMonth d.year d.month + d.day

/-- Lexicographic order on dates: the order Python's `datetime` comparison
uses on midnight datetimes. -/
def Date.le (a b : Date) : Prop :=
  a.year < b.year ∨ (a.year = b.year ∧ (a.month < b.month ∨ (a.month = b.month ∧ a.day ≤ b.day)))

instance (a b : Date) : Decidable (Date.le a b) := by
  unfold Date.le
  infer_instance

/-- Split a character list at every dash (model of `str.split("-")` as the
date format's separator handling). -/
def splitDashAux : List Char → List Char → List (List Char)
  | [], acc => [acc.reverse]
  | '-' :: rest, acc => acc.reverse :: splitDashAux rest []
  | c :: rest, acc => splitDashAux rest (c :: acc)

/-- Day field of `%d`: one or two digits, or a single space followed by one
nonzero digit (CPython's `%d` pattern `3[01]|[12]\d|0[1-9]|[1-9]| [1-9]`
accepts the space-padded form); range 1–31 is implied by the pattern and
re-checked against the month by the `datetime` constructor. -/
def parseDayChars (cs : List Char) : Option ℕ :=
  match cs with
  | [' ', c] => if '1' ≤ c ∧ c ≤ '9' then some (digitVal c) else none
  | _ => if cs.length ≤ 2 then charDigits cs else none

/-- Model of `datetime.strptime(s, "%Y-%m-%d")`: dash-separated fields with
a year of exactly four digits (CPython's `%Y` pattern is `\d\d\d\d`), a
month of one or two digits in 1–12, and a `%d` day field valid for the
month; year 0 fails in the `datetime` constructor. `none` on any mismatch
(Python raises `ValueError` there). -/
def parseDate (s : String) : Option Date :=
  match splitDashAux s.data [] with
  | [ys, ms, ds] =>
      match charDigits ys, charDigits ms, parseDayChars ds with
      | some y, some m, some d =>
          if ys.length = 4 ∧ ms.length ≤ 2 ∧ 1 ≤ y ∧
             1 ≤ m ∧ m ≤ 12 ∧ 1 ≤ d ∧ d ≤ daysInMonth y m
          then some ⟨y, m, d⟩ else none
      | _, _, _ => none
  | _ => none

/-! ## The Investment entity (`class Investment` in `src/app.py`) -/

/-- Investment record. Dates are rational day numbers: the embedding of the
`DateTime` columns (a value parsed from `YYYY-MM-DD` is the whole number
`Date.toOrdinal`; `datetime.utcnow()` may carry a fractional time of day). -/
structure Investment where
  title : String
  description : String
  amount : ℚ
  interest_rate : ℚ
  investment_date : ℚ
  maturity_date : ℚ
  investment_type : String
  fd_type : String
deriving DecidableEq, Repr

/-- Model of Python `round(q)` to an integer: round half to even. -/
def pyRound (q : ℚ) : ℤ :=
  let f := ⌊q⌋
  let r := q - (f : ℚ)
  if r < 1 / 2 then f else if 1 / 2 < r then f + 1 else if f % 2 = 0 then f else f + 1

/-- Model of Python `round(q, 2)`: round to two decimal places. -/
def pyRound2 (q : ℚ) : ℚ := (pyRound (q * 100) : ℚ) / 100

/-- Embedding of `Investment.calculate_maturity_amount`. -/
def calculate_maturity_amount (inv : Investment) : ℚ :=
  if inv.interest_rate ≤ 0 then inv.amount
  else
    let time_diff : ℚ := (⌊inv.maturity_date - inv.investment_date⌋ : ℚ) / (365.25 : ℚ)
    let interest := inv.amount * (inv.interest_rate / 100) * time_diff
    pyRound2 (inv.amount + interest)

/-- Embedding of `Investment.days_remaining`; `now` stands for the
`datetime.utcnow()` call, and `(maturity_date - today).days` is the floored
whole-day difference. -/
def days_remaining (inv : Investment) (now : ℚ) : ℤ :=
  if now < inv.maturity_date then ⌊inv.maturity_date - now⌋ else 0

/-- Embedding of `Investment.get_display_type`. -/
def get_display_type (inv : Investment) : String :=
  if inv.investment_type = "Fixed Deposit" ∧ inv.fd_type ≠ "" then "FD - " ++ inv.fd_type
  else inv.investment_type

/-! ## Currency formatting (`format_currency` and the `format_*` methods) -/

/-- Decimal digit characters of `n`, least significant first. -/
def digitsRevChars (n : ℕ) : List Char :=
  if h : n < 10 then [Nat.digitChar n]
  else Nat.digitChar (n % 10) :: digitsRevChars (n / 10)
termination_by n
decreasing_by exact Nat.div_lt_self (by omega) (by omega)

/-- Insert a comma after every three characters of a least-significant-first
digit list: the layout Python's `{:,}` format produces. -/
def group3 (l : List Char) : List Char :=
  if _h : l.length ≤ 3 then l
  else l.take 3 ++ ',' :: group3 (l.drop 3)
termination_by l.length
decreasing_by simp [List.length_drop]; omega

/-- Model of Python `f"{n:,}"` for a natural number. -/
def natComma (n : ℕ) : String := String.mk (group3 (digitsRevChars n)).reverse

/-- Model of Python `f"{i:,}"` for an integer. -/
def intComma (i : ℤ) : String := (if i < 0 then "-" else "") ++ natComma i.natAbs

/-- Model of Python `f"{q:,.2f}"`: sign, comma-grouped integer part, a dot,
then exactly two fraction digits. -/
def format2dec (q : ℚ) : String :=
  let a : ℕ := (pyRound (q * 100)).natAbs
  (if q < 0 then "-" else "") ++ natComma (a / 100) ++ "." ++
    String.mk [Nat.digitChar (a % 100 / 10), Nat.digitChar (a % 10)]

/-- Values the Jinja filter receives: numbers, or raw text to be parsed. -/
inductive JValue where
  | num (q : ℚ)
  | str (s : String)
deriving DecidableEq, Repr

/-- Shared rendering of a successfully converted number: a whole number
(denominator 1) drops the decimal point, anything else keeps two digits. -/
def renderNum (q : ℚ) : String :=
  if q.den = 1 then "৳" ++ intComma q.num else "৳" ++ format2dec q

/-- Rendering of a parsed float: a finite value as in `renderNum`; the
non-finite values print as Python's `f"{v:,.2f}"` does (`inf`, `-inf`,
`nan` — `is_integer()` is false for them, so they take the two-decimal
branch, whose format code emits the bare words). -/
def renderPyFloat : PyFloat → String
  | .finite q => renderNum q
  | .pinf => "৳" ++ "inf"
  | .ninf => "৳" ++ "-inf"
  | .nan => "৳" ++ "nan"

/-- Embedding of the Jinja filter `format_currency`: `float(value)` succeeds
directly on numbers and goes through string parsing on text; on failure the
raw input is rendered after the glyph. -/
def format_currency (v : JValue) : String :=
  match v with
  | .num q => renderNum q
  | .str s =>
      match parseFloat s with
      | some pf => renderPyFloat pf
      | none => "৳" ++ s

/-! ## Helper functions (`safe_float_conversion`, aggregation, FD sub-type) -/

/-- Embedding of `safe_float_conversion`: `None` or blank gives the default,
an unparseable string gives the default, otherwise the parsed value. -/
def safe_float_conversion (value : Option String) (dflt : PyFloat) : PyFloat :=
  match value with
  | none => dflt
  | some s => if pyStrip s = "" then dflt else (parseFloat s).getD dflt

/-- Net effect of the dict-update step in `calculate_portfolio_totals`:
`if display_type not in d: d[display_type] = 0` followed by
`d[display_type] += inv.amount`, on an insertion-ordered association list. -/
def addToGroups (groups : List (String × ℚ)) (key : String) (amt : ℚ) : List (String × ℚ) :=
  if groups.any (fun p => p.1 == key) then
    groups.map (fun p => if p.1 == key then (p.1, p.2 + amt) else p)
  else groups ++ [(key, amt)]

/-- Embedding of `calculate_portfolio_totals`. -/
def calculate_portfolio_totals (investments : List Investment) :
    ℚ × ℚ × ℚ × List (String × ℚ) :=
  let total_invested := (investments.map (fun inv => inv.amount)).sum
  let total_maturity_value := (investments.map calculate_maturity_amount).sum
  let total_profit := total_maturity_value - total_invested
  let investments_by_type :=
    investments.foldl (fun g inv => addToGroups g (get_display_type inv) inv.amount) []
  (total_invested, total_maturity_value, total_profit, investments_by_type)

/-- Embedding of `parse_fd_type` (create path). `fd_type_other` is an
optional form field; Python's truthiness test `if fd_type_other` is false
for both `None` and the empty string. -/
def parse_fd_type (investment_type fd_type_option : String) (fd_type_other : Option String) :
    String :=
  if investment_type = "Fixed Deposit" then
    if fd_type_option = "other" then
      match fd_type_other with
      | some s => if s = "" then "" else pyStrip s
      | none => ""
    else if fd_type_option ≠ "" then fd_type_option
    else ""
  else ""

/-- Embedding of the inlined sub-type resolution in `update_investment`
(update path); there `fd_type_other` is read with default `''` and stripped
unconditionally. -/
def update_fd_type (investment_type fd_type_option fd_type_other : String) : String :=
  if investment_type = "Fixed Deposit" then
    if fd_type_option = "other" then pyStrip fd_type_other
    else if fd_type_option ≠ "" then fd_type_option
    else ""
  else ""

/-! ## Form validation and the create/update handlers -/

/-- Submitted form fields, as `request.form.get` delivers them: `none` when
the field is absent from the request. -/
structure FormData where
  title : Option String
  description : Option String
  amount : Option String
  interest_rate : Option String
  investment_date : Option String
  maturity_date : Option String
  investment_type : Option String
  fd_type : Option String
  fd_type_other : Option String
deriving DecidableEq, Repr

/-- Python falsiness of `form_data.get(field)`: absent or empty. -/
def isBlank (o : Option String) : Bool :=
  match o with
  | none => true
  | some s => s == ""

/-- Date section of `validate_form_data`: parse both dates with
`%Y-%m-%d`; a parse failure is the `ValueError` branch, and an inverted or
equal pair is rejected. -/
def check_dates (f : FormData) : Bool × String :=
  match parseDate (f.investment_date.getD ""), parseDate (f.maturity_date.getD "") with
  | some d1, some d2 =>
      if Date.le d2 d1 then (false, "Maturity date must be after investment date.")
      else (true, "")
  | _, _ => (false, "Invalid date format. Use YYYY-MM-DD format.")

/-- Embedding of `validate_form_data`, following the source's check order:
required fields, amount, interest rate (only when present and non-empty,
because of the `'0'` default and the truthiness test), then dates. -/
def validate_form_data (f : FormData) : Bool × String :=
  if isBlank f.title then (false, "Title is required.")
  else if isBlank f.amount then (false, "Amount is required.")
  else if isBlank f.investment_date then (false, "Investment Date is required.")
  else if isBlank f.maturity_date then (false, "Maturity Date is required.")
  else
    match parseFloat (f.amount.getD "") with
    | none => (false, "Amount must be a valid number.")
    | some a =>
        if a.leB 0 then (false, "Amount must be greater than 0.")
        else
          if f.interest_rate.getD "0" = "" then check_dates f
          else
            match parseFloat (f.interest_rate.getD "0") with
            | none => (false, "Interest rate must be a valid number.")
            | some r =>
                if r.ltB 0 || r.gtB 100 then
                  (false, "Interest rate must be between 0 and 100.")
                else check_dates f

/-- Create handler (`index`, POST branch), as a transition on the stored
list of investments: validation failure flashes an error and leaves the
store untouched; otherwise the parsed record is added. The date parses
cannot fail here because validation already parsed the same strings. -/
def index_post (f : FormData) (db : List Investment) : List Investment × Option String :=
  if (validate_form_data f).1 = false then (db, some ("Error: " ++ (validate_form_data f).2))
  else
    let amount := (safe_float_conversion f.amount (.finite 0)).toRat
    let interest_rate := (safe_float_conversion f.interest_rate (.finite 0)).toRat
    let investment_type := f.investment_type.getD "Fixed Deposit"
    let fd_type := parse_fd_type investment_type (f.fd_type.getD "") (some (f.fd_type_other.getD ""))
    match parseDate (f.investment_date.getD ""), parseDate (f.maturity_date.getD "") with
    | some d1, some d2 =>
        (db ++ [⟨f.title.getD "", f.description.getD "", amount, interest_rate,
                 (d1.toOrdinal : ℚ), (d2.toOrdinal : ℚ), investment_type, fd_type⟩], none)
    | _, _ => (db, some "Error processing dates")

/-- Update handler (`update_investment`, POST branch) on an id-keyed store:
`get_or_404` failure, then validation, then full attribute replacement. -/
def update_post (id : ℕ) (f : FormData) (db : List (ℕ × Investment)) :
    List (ℕ × Investment) × Option String :=
  match db.find? (fun p => p.1 == id) with
  | none => (db, some "Investment not found")
  | some _ =>
      if (validate_form_data f).1 = false then (db, some ("Error: " ++ (validate_form_data f).2))
      else
        let investment_type := f.investment_type.getD "Fixed Deposit"
        let fd_type := update_fd_type investment_type (f.fd_type.getD "") (f.fd_type_other.getD "")
        match parseDate (f.investment_date.getD ""), parseDate (f.maturity_date.getD "") with
        | some d1, some d2 =>
            (db.map (fun p =>
              if p.1 == id then
                (p.1, ⟨f.title.getD "", f.description.getD "",
                       (safe_float_conversion f.amount (.finite 0)).toRat,
                       (safe_float_conversion f.interest_rate (.finite 0)).toRat,
                       (d1.toOrdinal : ℚ), (d2.toOrdinal : ℚ), investment_type, fd_type⟩)
              else p), none)
        | _, _ => (db, some "Error processing data")

/-! ## Ownership-gated operations (later revision's account layer) -/

/-- Outcome a request handler reports back to the browser. -/
inductive GateResult where
  | redirectLogin
  | notFound
  | success
deriving DecidableEq, Repr

/-- Investment row together with its id and owning user id. -/
structure OwnedInvestment where
  id : ℕ
  user_id : ℕ
  data : Investment
deriving DecidableEq, Repr

/-- Modelled from the spec: the ownership-gated `delete_investment` of the
final revision is not under `src/` (the file there is the earlier,
anonymous-access revision). Per spec section 4.4, an absent session
redirects to authentication, and a present-but-unauthorized session is
answered not-found with no state change; a matching owner deletes the row. -/
def delete_investment_gated (session_user : Option ℕ) (id : ℕ) (db : List OwnedInvestment) :
    List OwnedInvestment × GateResult :=
  match session_user with
  | none => (db, .redirectLogin)
  | some uid =>
      match db.find? (fun r => r.id == id) with
      | none => (db, .notFound)
      | some r =>
          if r.user_id = uid then (db.filter (fun x => x.id != id), .success)
          else (db, .notFound)

/-- Modelled from the spec: the ownership-gated `update_investment` of the
final revision is not under `src/`. Same gating as the delete handler; a
matching owner has the row's attributes replaced. -/
def update_investment_gated (session_user : Option ℕ) (id : ℕ) (newData : Investment)
    (db : List OwnedInvestment) : List OwnedInvestment × GateResult :=
  match session_user with
  | none => (db, .redirectLogin)
  | some uid =>
      match db.find? (fun r => r.id == id) with
      | none => (db, .notFound)
      | some r =>
          if r.user_id = uid then
            (db.map (fun x => if x.id == id then ⟨x.id, x.user_id, newData⟩ else x), .success)
          else (db, .notFound)

/-! ## Specification-side vocabulary used by the claim statements -/

/-- Keys of an association list, in stored order. -/
def keysOf (g : List (String × ℚ)) : List String := g.map Prod.fst

/-- First-seen order of the distinct elements of a list. -/
def firstSeen (l : List String) : List String :=
  l.foldl (fun acc x => if x ∈ acc then acc else acc ++ [x]) []

/-- Sum of the principal amounts of the entries with display category `k`. -/
def sumFor (l : List Investment) (k : String) : ℚ :=
  ((l.filter (fun i => get_display_type i == k)).map (fun i => i.amount)).sum

/-- Defect classes of claim C7: a missing required field, a non-positive
amount, an out-of-range interest rate, a malformed date, or a maturity date
not strictly after the investment date. -/
def hasDefect (f : FormData) : Prop :=
  isBlank f.title = true ∨ isBlank f.amount = true ∨
  isBlank f.investment_date = true ∨ isBlank f.maturity_date = true ∨
  (∃ a, parseFloat (f.amount.getD "") = some a ∧ a.leB 0 = true) ∨
  (∃ s r, f.interest_rate = some s ∧ s ≠ "" ∧ parseFloat s = some r ∧
    (r.ltB 0 = true ∨ r.gtB 100 = true)) ∨
  parseDate (f.investment_date.getD "") = none ∨
  parseDate (f.maturity_date.getD "") = none ∨
  (∃ d1 d2, parseDate (f.investment_date.getD "") = some d1 ∧
            parseDate (f.maturity_date.getD "") = some d2 ∧ Date.le d2 d1)

/-- Property of a least-significant-first character list: commas sit exactly
at every fourth position (grouping in threes from the right), and never at
the end — the layout of a thousands-separated number read from the right. -/
def commasEvery3 (l : List Char) : Prop :=
  ∀ i, ∀ h : i < l.length, (l[i] = ',') ↔ (i % 4 = 3 ∧ i + 1 < l.length)

/-! ## Theorems -/

/-- C1: for every Investment, `calculate_maturity_amount` returns the
principal unchanged when the interest rate is ≤ 0, and otherwise returns
principal + principal × (rate/100) × (whole days between the dates / 365.25),
rounded to 2 decimal places (simple, non-compounding interest). -/
theorem c1_maturity_amount_formula (inv : Investment) :
    calculate_maturity_amount inv =
      if inv.interest_rate ≤ 0 then inv.amount
      else pyRound2 (inv.amount +
        inv.amount * (inv.interest_rate / 100) *
          ((⌊inv.maturity_date - inv.investment_date⌋ : ℚ) / (365.25 : ℚ))) := rfl

/-- C2: the aggregator returns totalInvested = sum of principal amounts,
totalMaturityValue = sum of maturity amounts, totalProfit = their
difference, and `(0, 0, 0, {})` on the empty sequence. -/
theorem c2_portfolio_totals (l : List Investment) :
    (calculate_portfolio_totals l).1 = (l.map (fun inv => inv.amount)).sum ∧
    (calculate_portfolio_totals l).2.1 = (l.map calculate_maturity_amount).sum ∧
    (calculate_portfolio_totals l).2.2.1 =
      (calculate_portfolio_totals l).2.1 - (calculate_portfolio_totals l).1 ∧
    calculate_portfolio_totals [] = (0, 0, 0, []) :=
  ⟨rfl, rfl, rfl, by simp [calculate_portfolio_totals]⟩

/-- C6: the stored sub-type is resolved identically on create
(`parse_fd_type`) and on update (inlined logic), and both follow the rule:
for "Fixed Deposit", option "other" stores the trimmed free text, any other
non-empty option is stored verbatim, no option stores ""; any other
category forces "". -/
theorem c6_subtype_resolution (t opt other : String) :
    parse_fd_type t opt (some other) = update_fd_type t opt other ∧
    update_fd_type t opt other =
      (if t = "Fixed Deposit" then
         if opt = "other" then pyStrip other
         else if opt = "" then "" else opt
       else "") := by
  constructor
  · unfold parse_fd_type update_fd_type
    by_cases h1 : t = "Fixed Deposit" <;> simp only [h1, ite_true, ite_false]
    by_cases h2 : opt = "other" <;> simp only [h2, ite_true, ite_false]
    by_cases h3 : other = "" <;> simp only [h3, ite_true, ite_false]
    subst h3
    decide
  · unfold update_fd_type
    by_cases h1 : t = "Fixed Deposit" <;> simp only [h1, ite_true, ite_false]
    by_cases h2 : opt = "other" <;> simp only [h2, ite_true, ite_false]
    by_cases h3 : opt = "" <;> simp [h3]

/-- C5 counterexample: with `now = 0` and a maturity datetime half a day
later, `days_remaining` returns 0 although `maturity_date > now`, so
"returns 0 exactly when maturity_date ≤ now" fails in one direction. -/
theorem c5_counterexample :
    days_remaining ⟨"t", "", 100, 0, 0, 1 / 2, "Stocks", ""⟩ 0 = 0 ∧
    ¬ ((⟨"t", "", 100, 0, 0, 1 / 2, "Stocks", ""⟩ : Investment).maturity_date ≤ (0 : ℚ)) := by
  constructor
  · norm_num [days_remaining]
  · norm_num

/-- C5 as amended: `days_remaining` is never negative; it returns 0 exactly
when less than one whole day remains (in particular whenever
maturity_date ≤ now); and for a future maturity it equals the floored
whole-day difference between now and the maturity date. -/
theorem c5_days_remaining_amended (inv : Investment) (now : ℚ) :
    0 ≤ days_remaining inv now ∧
    (days_remaining inv now = 0 ↔ inv.maturity_date - now < 1) ∧
    (now < inv.maturity_date → days_remaining inv now = ⌊inv.maturity_date - now⌋) := by
  unfold days_remaining
  by_cases h : now < inv.maturity_date
  · rw [if_pos h]
    refine ⟨Int.floor_nonneg.mpr (by linarith), ⟨fun h0 => ?_, fun hlt => ?_⟩, fun _ => rfl⟩
    · exact (Set.mem_Ico.mp (Int.floor_eq_zero_iff.mp h0)).2
    · exact Int.floor_eq_zero_iff.mpr (Set.mem_Ico.mpr ⟨by linarith, hlt⟩)
  · rw [if_neg h]
    push_neg at h
    exact ⟨le_refl 0, ⟨fun _ => by linarith, fun _ => rfl⟩, fun hc => absurd hc (not_lt.mpr h)⟩

/-- C5 witness: the amended theorem evaluated on a concrete investment ten
days from maturity. -/
theorem c5_amended_witness :
    0 ≤ days_remaining ⟨"w", "", 1, 0, 0, 10, "Stocks", ""⟩ 0 ∧
    days_remaining ⟨"w", "", 1, 0, 0, 10, "Stocks", ""⟩ 0 = ⌊(10 : ℚ) - 0⌋ :=
  ⟨(c5_days_remaining_amended ⟨"w", "", 1, 0, 0, 10, "Stocks", ""⟩ 0).1,
   (c5_days_remaining_amended ⟨"w", "", 1, 0, 0, 10, "Stocks", ""⟩ 0).2.2 (by norm_num)⟩

/-- Helper: with pairwise-distinct ids, looking up a stored row's id finds
that row. -/
theorem find_id_eq_self (db : List OwnedInvestment) (r : OwnedInvestment)
    (hmem : r ∈ db) (hnd : (db.map (fun x => x.id)).Nodup) :
    db.find? (fun x => x.id == r.id) = some r := by
  induction db with
  | nil => simp at hmem
  | cons x xs ih =>
      simp only [List.map_cons, List.nodup_cons] at hnd
      rcases List.mem_cons.mp hmem with h | h
      · subst h
        simp [List.find?]
      · have hne : (x.id == r.id) = false := by
          simp only [beq_eq_false_iff_ne, ne_eq]
          intro he
          exact hnd.1 (he ▸ List.mem_map.mpr ⟨r, h, rfl⟩)
        simp only [List.find?, hne]
        exact ih h hnd.2

/-- C4: a session authenticated as user A acting on an investment owned by a
different user B has the update or delete refused as not-found, with the
store (in particular B's row) unchanged. -/
theorem c4_ownership_gating (uidA : ℕ) (r : OwnedInvestment) (db : List OwnedInvestment)
    (newData : Investment) (hmem : r ∈ db) (hnd : (db.map (fun x => x.id)).Nodup)
    (howner : r.user_id ≠ uidA) :
    delete_investment_gated (some uidA) r.id db = (db, .notFound) ∧
    update_investment_gated (some uidA) r.id newData db = (db, .notFound) := by
  have hf := find_id_eq_self db r hmem hnd
  constructor
  · unfold delete_investment_gated
    rw [hf]
    simp [howner]
  · unfold update_investment_gated
    rw [hf]
    simp [howner]

/-- C4 witness: user 1 attempting to delete or update user 2's row is
answered not-found and the store is unchanged. -/
theorem c4_ownership_gating_witness :
    delete_investment_gated (some 1) 2
      [⟨1, 1, ⟨"a", "", 1, 0, 0, 1, "Stocks", ""⟩⟩, ⟨2, 2, ⟨"b", "", 1, 0, 0, 1, "Stocks", ""⟩⟩] =
      ([⟨1, 1, ⟨"a", "", 1, 0, 0, 1, "Stocks", ""⟩⟩, ⟨2, 2, ⟨"b", "", 1, 0, 0, 1, "Stocks", ""⟩⟩],
        .notFound) ∧
    update_investment_gated (some 1) 2 ⟨"z", "", 9, 0, 0, 1, "Stocks", ""⟩
      [⟨1, 1, ⟨"a", "", 1, 0, 0, 1, "Stocks", ""⟩⟩, ⟨2, 2, ⟨"b", "", 1, 0, 0, 1, "Stocks", ""⟩⟩] =
      ([⟨1, 1, ⟨"a", "", 1, 0, 0, 1, "Stocks", ""⟩⟩, ⟨2, 2, ⟨"b", "", 1, 0, 0, 1, "Stocks", ""⟩⟩],
        .notFound) :=
  c4_ownership_gating 1 ⟨2, 2, ⟨"b", "", 1, 0, 0, 1, "Stocks", ""⟩⟩
    [⟨1, 1, ⟨"a", "", 1, 0, 0, 1, "Stocks", ""⟩⟩, ⟨2, 2, ⟨"b", "", 1, 0, 0, 1, "Stocks", ""⟩⟩]
    ⟨"z", "", 9, 0, 0, 1, "Stocks", ""⟩ (by simp) (by simp) (by simp)

/-- Helper: the dict-membership test in the aggregation loop coincides with
key membership. -/
theorem any_key_eq_mem (g : List (String × ℚ)) (k : String) :
    (g.any fun p => p.1 == k) = true ↔ k ∈ keysOf g := by
  simp [keysOf, List.any_eq_true]

/-- Helper: updating the value stored at a key leaves the key list alone. -/
theorem keysOf_update (g : List (String × ℚ)) (k : String) (a : ℚ) :
    keysOf (g.map (fun p => if p.1 == k then (p.1, p.2 + a) else p)) = keysOf g := by
  induction g with
  | nil => rfl
  | cons x xs ih =>
      obtain ⟨k1, v1⟩ := x
      by_cases h : (k1 == k) = true
      · simp only [keysOf, List.map_cons, h, ite_true] at ih ⊢
        rw [ih]
      · simp only [keysOf, List.map_cons, h, ite_false] at ih ⊢
        simp [ih]
        intro a1 b _
        split <;> rfl

/-- Helper: effect of one aggregation-loop step on the key list. -/
theorem keys_addToGroups (g : List (String × ℚ)) (k : String) (a : ℚ) :
    keysOf (addToGroups g k a) = if k ∈ keysOf g then keysOf g else keysOf g ++ [k] := by
  unfold addToGroups
  by_cases hmem : k ∈ keysOf g
  · rw [if_pos ((any_key_eq_mem g k).mpr hmem), if_pos hmem]
    exact keysOf_update g k a
  · have hany : (g.any fun p => p.1 == k) = false :=
      Bool.eq_false_iff.mpr (fun ht => hmem ((any_key_eq_mem g k).mp ht))
    rw [hany, if_neg hmem]
    simp [keysOf]

/-- Helper: a key outside the key list has no stored value. -/
theorem lookup_eq_none_of_not_mem (g : List (String × ℚ)) (k : String)
    (h : k ∉ keysOf g) : List.lookup k g = none := by
  induction g with
  | nil => rfl
  | cons x xs ih =>
      obtain ⟨k1, v1⟩ := x
      simp only [keysOf, List.map_cons, List.mem_cons, not_or] at h
      have hb : (k == k1) = false := beq_eq_false_iff_ne.mpr h.1
      rw [List.lookup_cons]
      simp only [hb]
      exact ih h.2

/-- Helper: a key in the key list has a stored value. -/
theorem lookup_isSome_of_mem (g : List (String × ℚ)) (k : String)
    (h : k ∈ keysOf g) : ∃ v, List.lookup k g = some v := by
  induction g with
  | nil => simp [keysOf] at h
  | cons x xs ih =>
      obtain ⟨k1, v1⟩ := x
      by_cases hk : k = k1
      · exact ⟨v1, by simp [List.lookup_cons, hk]⟩
      · have hb : (k == k1) = false := beq_eq_false_iff_ne.mpr hk
        simp only [keysOf, List.map_cons, List.mem_cons] at h
        rcases h with h | h
        · exact absurd h hk
        · rcases ih h with ⟨v, hv⟩
          exact ⟨v, by rw [List.lookup_cons]; simp only [hb]; exact hv⟩

/-- Helper: looking up after the value-update step adds the amount at the
updated key and changes nothing elsewhere. -/
theorem lookup_update (g : List (String × ℚ)) (k0 : String) (a : ℚ) (k : String) :
    List.lookup k (g.map (fun p => if p.1 == k0 then (p.1, p.2 + a) else p)) =
      if k = k0 then (List.lookup k0 g).map (fun v => v + a) else List.lookup k g := by
  induction g with
  | nil => by_cases hk : k = k0 <;> simp [hk]
  | cons x xs ih =>
      obtain ⟨k1, v1⟩ := x
      by_cases h0 : (k1 == k0) = true
      · have hk1 : k1 = k0 := eq_of_beq h0
        subst hk1
        by_cases hk : k = k1
        · subst hk
          simp [List.lookup_cons, h0]
        · have hb : (k == k1) = false := beq_eq_false_iff_ne.mpr hk
          simp only [List.map_cons, h0, ite_true, List.lookup_cons, hb, if_neg hk, ih]
      · have hk1 : k1 ≠ k0 := fun he => h0 (beq_iff_eq.mpr he)
        by_cases hk : k = k1
        · subst hk
          have hb : (k == k0) = false := beq_eq_false_iff_ne.mpr hk1
          simp [List.lookup_cons, h0, hk1, beq_self_eq_true]
        · have h0f : (k1 == k0) = false := Bool.eq_false_iff.mpr h0
          have hb : (k == k1) = false := beq_eq_false_iff_ne.mpr hk
          have hb2 : (k0 == k1) = false := beq_eq_false_iff_ne.mpr (Ne.symm hk1)
          simp only [List.map_cons, h0f, Bool.false_eq_true, ite_false, List.lookup_cons,
            hb, hb2, ih]

/-- Helper: looking up in the store after appending a fresh key. -/
theorem lookup_append_single (g : List (String × ℚ)) (k0 : String) (a : ℚ) (k : String)
    (hfresh : k0 ∉ keysOf g) :
    List.lookup k (g ++ [(k0, a)]) =
      if k = k0 then some a else List.lookup k g := by
  induction g with
  | nil =>
      by_cases hk : k = k0
      · simp [List.lookup_cons, hk]
      · simp [List.lookup_cons, beq_eq_false_iff_ne.mpr hk, hk]
  | cons x xs ih =>
      obtain ⟨k1, v1⟩ := x
      simp only [keysOf, List.map_cons, List.mem_cons, not_or] at hfresh
      by_cases hk : k = k1
      · subst hk
        have hne : ¬ k = k0 := fun he => hfresh.1 (he ▸ rfl)
        simp [List.lookup_cons, if_neg hne]
      · have hb : (k == k1) = false := beq_eq_false_iff_ne.mpr hk
        simp only [List.cons_append, List.lookup_cons, hb]
        exact ih hfresh.2

/-- Helper: looking up after one full aggregation-loop step. -/
theorem lookup_addToGroups (g : List (String × ℚ)) (k0 : String) (a : ℚ) (k : String) :
    List.lookup k (addToGroups g k0 a) =
      if k = k0 then some ((List.lookup k0 g).getD 0 + a) else List.lookup k g := by
  unfold addToGroups
  by_cases hmem : k0 ∈ keysOf g
  · rw [if_pos ((any_key_eq_mem g k0).mpr hmem), lookup_update]
    rcases lookup_isSome_of_mem g k0 hmem with ⟨v, hv⟩
    by_cases hk : k = k0 <;> simp [hk, hv]
  · have hany : (g.any fun p => p.1 == k0) = false :=
      Bool.eq_false_iff.mpr (fun ht => hmem ((any_key_eq_mem g k0).mp ht))
    rw [hany]
    simp only [Bool.false_eq_true, ite_false]
    rw [lookup_append_single g k0 a k hmem]
    by_cases hk : k = k0
    · subst hk
      rw [lookup_eq_none_of_not_mem g k hmem]
      simp
    · simp [hk]

/-- Helper: running the aggregation loop over `l` starting from any store,
each key holds its initial value plus the principal sum of matching
entries; a key absent from the store appears exactly when some entry has
that display category. -/
theorem lookup_byType_foldl (l : List Investment) :
    ∀ (g : List (String × ℚ)) (k : String),
      List.lookup k (l.foldl (fun g2 inv => addToGroups g2 (get_display_type inv) inv.amount) g) =
        match List.lookup k g with
        | some v => some (v + sumFor l k)
        | none => if k ∈ l.map get_display_type then some (sumFor l k) else none := by
  induction l with
  | nil =>
      intro g k
      simp only [List.foldl_nil, sumFor, List.filter_nil, List.map_nil, List.sum_nil,
        List.not_mem_nil, ite_false]
      cases List.lookup k g <;> simp
  | cons i l ih =>
      intro g k
      rw [List.foldl_cons, ih, lookup_addToGroups]
      by_cases hk : k = get_display_type i
      · subst hk
        rw [if_pos rfl]
        have hfilter : sumFor (i :: l) (get_display_type i) =
            i.amount + sumFor l (get_display_type i) := by
          simp [sumFor, List.filter_cons]
        cases hl : List.lookup (get_display_type i) g with
        | none => simp [hl, hfilter]
        | some v => simp [hl, hfilter, add_assoc]
      · rw [if_neg hk]
        have hd : get_display_type i ≠ k := fun he => hk he.symm
        have hs : sumFor (i :: l) k = sumFor l k := by
          simp [sumFor, List.filter_cons, beq_eq_false_iff_ne.mpr hd]
        cases hl : List.lookup k g <;> simp [hl, hs, List.mem_cons, hk]

/-- Helper: the key list produced by the aggregation loop extends the
initial key list in first-seen order. -/
theorem keys_byType_foldl (l : List Investment) :
    ∀ acc : List (String × ℚ),
      keysOf (l.foldl (fun g inv => addToGroups g (get_display_type inv) inv.amount) acc) =
        (l.map get_display_type).foldl (fun ks x => if x ∈ ks then ks else ks ++ [x])
          (keysOf acc) := by
  induction l with
  | nil => intro acc; rfl
  | cons i l ih =>
      intro acc
      rw [List.foldl_cons, List.map_cons, List.foldl_cons, ih, keys_addToGroups]

/-- C3: `byCategory` maps each display-category text to the sum of
principal amounts of the entries sharing it, keys appear in first-seen
order, and every category present in the input appears (its lookup is
`some`, never `none`). -/
theorem c3_by_category (l : List Investment) :
    keysOf (calculate_portfolio_totals l).2.2.2 = firstSeen (l.map get_display_type) ∧
    ∀ k : String,
      List.lookup k (calculate_portfolio_totals l).2.2.2 =
        if k ∈ l.map get_display_type then some (sumFor l k) else none := by
  constructor
  · exact keys_byType_foldl l []
  · intro k
    exact lookup_byType_foldl l [] k

/-- C8: the three scalar totals are invariant under permutation of the
input sequence, while `byCategory` keys follow first occurrence in the
given sequence; as a Lean function the aggregator is deterministic and
leaves its input unchanged by construction. -/
theorem c8_totals_permutation (l l2 : List Investment) (h : l.Perm l2) :
    (calculate_portfolio_totals l).1 = (calculate_portfolio_totals l2).1 ∧
    (calculate_portfolio_totals l).2.1 = (calculate_portfolio_totals l2).2.1 ∧
    (calculate_portfolio_totals l).2.2.1 = (calculate_portfolio_totals l2).2.2.1 ∧
    keysOf (calculate_portfolio_totals l).2.2.2 = firstSeen (l.map get_display_type) := by
  have h1 : ((l.map fun inv => inv.amount).sum) = ((l2.map fun inv => inv.amount).sum) :=
    (h.map fun inv => inv.amount).sum_eq
  have h2 : ((l.map calculate_maturity_amount).sum) = ((l2.map calculate_maturity_amount).sum) :=
    (h.map calculate_maturity_amount).sum_eq
  refine ⟨h1, h2, ?_, keys_byType_foldl l []⟩
  show (l.map calculate_maturity_amount).sum - (l.map fun inv => inv.amount).sum =
    (l2.map calculate_maturity_amount).sum - (l2.map fun inv => inv.amount).sum
  rw [h1, h2]

/-- C8 witness: the theorem applied to a concrete two-element sequence and
its swap. -/
theorem c8_totals_permutation_witness :
    (calculate_portfolio_totals [⟨"a", "", 5000, 0, 0, 1, "Fixed Deposit", "FSP"⟩,
        ⟨"b", "", 3000, 0, 0, 1, "Stocks", ""⟩]).1 =
      (calculate_portfolio_totals [⟨"b", "", 3000, 0, 0, 1, "Stocks", ""⟩,
        ⟨"a", "", 5000, 0, 0, 1, "Fixed Deposit", "FSP"⟩]).1 ∧
    (calculate_portfolio_totals [⟨"a", "", 5000, 0, 0, 1, "Fixed Deposit", "FSP"⟩,
        ⟨"b", "", 3000, 0, 0, 1, "Stocks", ""⟩]).2.1 =
      (calculate_portfolio_totals [⟨"b", "", 3000, 0, 0, 1, "Stocks", ""⟩,
        ⟨"a", "", 5000, 0, 0, 1, "Fixed Deposit", "FSP"⟩]).2.1 ∧
    (calculate_portfolio_totals [⟨"a", "", 5000, 0, 0, 1, "Fixed Deposit", "FSP"⟩,
        ⟨"b", "", 3000, 0, 0, 1, "Stocks", ""⟩]).2.2.1 =
      (calculate_portfolio_totals [⟨"b", "", 3000, 0, 0, 1, "Stocks", ""⟩,
        ⟨"a", "", 5000, 0, 0, 1, "Fixed Deposit", "FSP"⟩]).2.2.1 ∧
    keysOf (calculate_portfolio_totals [⟨"a", "", 5000, 0, 0, 1, "Fixed Deposit", "FSP"⟩,
        ⟨"b", "", 3000, 0, 0, 1, "Stocks", ""⟩]).2.2.2 =
      firstSeen ([⟨"a", "", 5000, 0, 0, 1, "Fixed Deposit", "FSP"⟩,
        ⟨"b", "", 3000, 0, 0, 1, "Stocks", ""⟩].map get_display_type) :=
  c8_totals_permutation
    [⟨"a", "", 5000, 0, 0, 1, "Fixed Deposit", "FSP"⟩, ⟨"b", "", 3000, 0, 0, 1, "Stocks", ""⟩]
    [⟨"b", "", 3000, 0, 0, 1, "Stocks", ""⟩, ⟨"a", "", 5000, 0, 0, 1, "Fixed Deposit", "FSP"⟩]
    (List.Perm.swap (⟨"b", "", 3000, 0, 0, 1, "Stocks", ""⟩ : Investment)
      (⟨"a", "", 5000, 0, 0, 1, "Fixed Deposit", "FSP"⟩ : Investment) [])

/-- Helper: if the date section passes, both dates parsed and the maturity
date is strictly after the investment date. -/
theorem check_dates_true_facts (f : FormData) (h : (check_dates f).1 = true) :
    ∃ d1 d2, parseDate (f.investment_date.getD "") = some d1 ∧
      parseDate (f.maturity_date.getD "") = some d2 ∧ ¬ Date.le d2 d1 := by
  unfold check_dates at h
  split at h
  next d1 d2 h1 h2 =>
    split at h
    · simp at h
    · exact ⟨d1, d2, h1, h2, by assumption⟩
  next =>
    simp at h

/-- Helper: everything a passing validation guarantees about the form. -/
theorem validate_true_facts (f : FormData) (h : (validate_form_data f).1 = true) :
    isBlank f.title = false ∧ isBlank f.amount = false ∧
    isBlank f.investment_date = false ∧ isBlank f.maturity_date = false ∧
    (∃ a, parseFloat (f.amount.getD "") = some a ∧ a.leB 0 = false) ∧
    (∀ s, f.interest_rate = some s → s ≠ "" →
      ∃ r, parseFloat s = some r ∧ r.ltB 0 = false ∧ r.gtB 100 = false) ∧
    (∃ d1 d2, parseDate (f.investment_date.getD "") = some d1 ∧
      parseDate (f.maturity_date.getD "") = some d2 ∧ ¬ Date.le d2 d1) := by
  unfold validate_form_data at h
  by_cases h1 : isBlank f.title = true
  · rw [if_pos h1] at h; simp at h
  rw [if_neg h1] at h
  by_cases h2 : isBlank f.amount = true
  · rw [if_pos h2] at h; simp at h
  rw [if_neg h2] at h
  by_cases h3 : isBlank f.investment_date = true
  · rw [if_pos h3] at h; simp at h
  rw [if_neg h3] at h
  by_cases h4 : isBlank f.maturity_date = true
  · rw [if_pos h4] at h; simp at h
  rw [if_neg h4] at h
  cases hpf : parseFloat (f.amount.getD "") with
  | none => rw [hpf] at h; simp at h
  | some a =>
      simp only [hpf] at h
      by_cases ha : a.leB 0 = true
      · rw [if_pos ha] at h; simp at h
      rw [if_neg ha] at h
      have haf : a.leB 0 = false := Bool.eq_false_iff.mpr ha
      by_cases hir : f.interest_rate.getD "0" = ""
      · rw [if_pos hir] at h
        refine ⟨Bool.eq_false_iff.mpr h1, Bool.eq_false_iff.mpr h2,
          Bool.eq_false_iff.mpr h3, Bool.eq_false_iff.mpr h4,
          ⟨a, rfl, haf⟩, ?_, check_dates_true_facts f h⟩
        intro s hs hsne
        rw [hs] at hir
        exact absurd hir hsne
      · rw [if_neg hir] at h
        cases hr : parseFloat (f.interest_rate.getD "0") with
        | none => rw [hr] at h; simp at h
        | some r =>
            simp only [hr] at h
            by_cases hrange : (r.ltB 0 || r.gtB 100) = true
            · rw [if_pos hrange] at h; simp at h
            rw [if_neg hrange] at h
            have hrf := Bool.eq_false_iff.mpr hrange
            rw [Bool.or_eq_false_iff] at hrf
            refine ⟨Bool.eq_false_iff.mpr h1, Bool.eq_false_iff.mpr h2,
              Bool.eq_false_iff.mpr h3, Bool.eq_false_iff.mpr h4,
              ⟨a, rfl, haf⟩, ?_, check_dates_true_facts f h⟩
            intro s hs _
            rw [hs] at hr
            exact ⟨r, hr, hrf.1, hrf.2⟩

/-- Helper: the date section either passes or reports a non-empty reason. -/
theorem check_dates_ok_or_msg (f : FormData) :
    (check_dates f).1 = true ∨ (check_dates f).2 ≠ "" := by
  unfold check_dates
  split
  · split
    · right; simp
    · left; rfl
  · right; simp

/-- Helper: validation either passes or reports a non-empty reason. -/
theorem validate_ok_or_msg (f : FormData) :
    (validate_form_data f).1 = true ∨ (validate_form_data f).2 ≠ "" := by
  unfold validate_form_data
  repeat' split
  all_goals first
  | exact check_dates_ok_or_msg f
  | (right; simp)

/-- Helper: a failing validation carries a non-empty human-readable reason. -/
theorem validate_nonempty_msg (f : FormData)
    (hf : (validate_form_data f).1 = false) : (validate_form_data f).2 ≠ "" := by
  rcases validate_ok_or_msg f with h | h
  · rw [hf] at h
    exact absurd h (by decide)
  · exact h

/-- C7: any submission with a missing required field, non-positive amount,
out-of-range interest rate, malformed date, or maturity date not strictly
after the investment date is rejected by validation with a non-empty
human-readable reason, and both the create and the update handler leave the
stored state unchanged. -/
theorem c7_validation_rejects (f : FormData) (id : ℕ) (db : List Investment)
    (db2 : List (ℕ × Investment)) (h : hasDefect f) :
    (validate_form_data f).1 = false ∧ (validate_form_data f).2 ≠ "" ∧
    (index_post f db).1 = db ∧ (update_post id f db2).1 = db2 := by
  have hfalse : (validate_form_data f).1 = false := by
    by_contra hne
    have htrue : (validate_form_data f).1 = true := by
      cases hb : (validate_form_data f).1
      · exact absurd hb hne
      · rfl
    obtain ⟨f1, f2, f3, f4, ⟨a, ha, hanp⟩, frate, d1, d2, hd1, hd2, hDle⟩ :=
      validate_true_facts f htrue
    rcases h with h | h | h | h | ⟨a2, ha2, hale⟩ | ⟨s, r, hs, hsne, hr, hrng⟩ | h | h |
      ⟨e1, e2, he1, he2, hle⟩
    · rw [h] at f1; simp at f1
    · rw [h] at f2; simp at f2
    · rw [h] at f3; simp at f3
    · rw [h] at f4; simp at f4
    · rw [ha] at ha2
      injection ha2 with he
      subst he
      rw [hanp] at hale
      exact Bool.noConfusion hale
    · obtain ⟨r2, hr2, h0, h100⟩ := frate s hs hsne
      rw [hr] at hr2
      injection hr2 with he
      subst he
      rcases hrng with hh | hh
      · rw [h0] at hh
        exact Bool.noConfusion hh
      · rw [h100] at hh
        exact Bool.noConfusion hh
    · rw [h] at hd1; simp at hd1
    · rw [h] at hd2; simp at hd2
    · rw [hd1] at he1
      injection he1 with he
      subst he
      rw [hd2] at he2
      injection he2 with he
      subst he
      exact hDle hle
  refine ⟨hfalse, validate_nonempty_msg f hfalse, ?_, ?_⟩
  · simp [index_post, hfalse]
  · unfold update_post
    cases hfind : db2.find? (fun p => p.1 == id) with
    | none => simp only [hfind]
    | some p =>
        simp only [hfind]
        simp [hfalse]

/-- C7 witness: a form with a missing title (and a blank interest rate
field, which is not among the defects) is rejected and both stores stay
unchanged. -/
theorem c7_validation_rejects_witness :
    (validate_form_data
      ⟨none, none, some "100", none, some "2024-01-01", some "2024-06-01",
        none, none, none⟩).1 = false ∧
    (validate_form_data
      ⟨none, none, some "100", none, some "2024-01-01", some "2024-06-01",
        none, none, none⟩).2 ≠ "" ∧
    (index_post
      ⟨none, none, some "100", none, some "2024-01-01", some "2024-06-01",
        none, none, none⟩ []).1 = [] ∧
    (update_post 1
      ⟨none, none, some "100", none, some "2024-01-01", some "2024-06-01",
        none, none, none⟩ []).1 = [] :=
  c7_validation_rejects
    ⟨none, none, some "100", none, some "2024-01-01", some "2024-06-01", none, none, none⟩
    1 [] [] (Or.inl (by decide))

/-- C10 counterexample: a whitespace-only interest-rate field is rejected
by validation ("Interest rate must be a valid number.", since Python's
`float(" ")` raises), so the claim's "absent, empty, or whitespace-only is
accepted" fails for the whitespace-only case. -/
theorem c10_counterexample :
    validate_form_data
      ⟨some "T", none, some "100", some " ", some "2024-01-01", some "2024-06-01",
        none, none, none⟩ = (false, "Interest rate must be a valid number.") := by
  decide

/-- C10 as amended: a create submission whose interest-rate field is absent
or empty (whitespace-only is instead rejected, see the counterexample) is
accepted when the other fields are valid, and the created record stores
interest rate 0 so its maturity amount equals its principal. -/
theorem c10_interest_rate_amended (f : FormData) (db : List Investment)
    (hrate : f.interest_rate = none ∨ f.interest_rate = some "")
    (htitle : isBlank f.title = false)
    (hamtb : isBlank f.amount = false)
    (hamount : ∃ a, parseFloat (f.amount.getD "") = some a ∧ a.leB 0 = false)
    (hib : isBlank f.investment_date = false)
    (hmb : isBlank f.maturity_date = false)
    (hdates : ∃ d1 d2, parseDate (f.investment_date.getD "") = some d1 ∧
      parseDate (f.maturity_date.getD "") = some d2 ∧ ¬ Date.le d2 d1) :
    validate_form_data f = (true, "") ∧
    ∃ inv : Investment, index_post f db = (db ++ [inv], none) ∧
      inv.interest_rate = 0 ∧ calculate_maturity_amount inv = inv.amount := by
  obtain ⟨a, ha, hanp⟩ := hamount
  obtain ⟨d1, d2, hd1, hd2, hnle⟩ := hdates
  have hcd : check_dates f = (true, "") := by
    unfold check_dates
    simp only [hd1, hd2]
    rw [if_neg hnle]
  have hv : validate_form_data f = (true, "") := by
    unfold validate_form_data
    rw [if_neg (by simp [htitle]), if_neg (by simp [hamtb]), if_neg (by simp [hib]),
      if_neg (by simp [hmb])]
    simp only [ha]
    rw [if_neg (by simp [hanp])]
    rcases hrate with h | h
    · rw [h]
      simp only [Option.getD_none]
      rw [if_neg (by decide)]
      have hp0 : parseFloat "0" = some (.finite 0) := by decide
      simp only [hp0]
      rw [if_neg (by decide)]
      exact hcd
    · rw [h]
      simp only [Option.getD_some]
      simpa using hcd
  have hir0 : (safe_float_conversion f.interest_rate (.finite 0)).toRat = 0 := by
    rcases hrate with h | h
    · rw [h]
      rfl
    · rw [h]
      have hps : pyStrip "" = "" := by decide
      simp [safe_float_conversion, hps]
      rfl
  refine ⟨hv, ⟨f.title.getD "", f.description.getD "",
    (safe_float_conversion f.amount (.finite 0)).toRat, 0,
    ((d1.toOrdinal : ℕ) : ℚ), ((d2.toOrdinal : ℕ) : ℚ), f.investment_type.getD "Fixed Deposit",
    parse_fd_type (f.investment_type.getD "Fixed Deposit") (f.fd_type.getD "")
      (some (f.fd_type_other.getD ""))⟩, ?_, rfl, ?_⟩
  · unfold index_post
    rw [if_neg (by simp [hv])]
    simp only [hd1, hd2, hir0]
  · simp [calculate_maturity_amount]

/-- C10 witness: the amended theorem on a concrete form with no
interest-rate field. -/
theorem c10_interest_rate_amended_witness :
    validate_form_data
      ⟨some "T", none, some "100", none, some "2024-01-01", some "2024-06-01",
        none, none, none⟩ = (true, "") ∧
    ∃ inv : Investment,
      index_post
        ⟨some "T", none, some "100", none, some "2024-01-01", some "2024-06-01",
          none, none, none⟩ [] = ([] ++ [inv], none) ∧
      inv.interest_rate = 0 ∧ calculate_maturity_amount inv = inv.amount :=
  c10_interest_rate_amended
    ⟨some "T", none, some "100", none, some "2024-01-01", some "2024-06-01",
      none, none, none⟩ []
    (Or.inl rfl) (by decide) (by decide) ⟨.finite 100, by decide, by decide⟩
    (by decide) (by decide)
    ⟨⟨2024, 1, 1⟩, ⟨2024, 6, 1⟩, by decide, by decide, by decide⟩

/-- Helper: `group3` leaves a short list alone. -/
theorem group3_eq_small (l : List Char) (h : l.length ≤ 3) : group3 l = l := by
  unfold group3
  rw [dif_pos h]

/-- Helper: `group3` on a list of more than three characters emits one chunk
and a comma, then recurses. -/
theorem group3_eq_large (l : List Char) (h : ¬ l.length ≤ 3) :
    group3 l = l.take 3 ++ ',' :: group3 (l.drop 3) := by
  conv_lhs => rw [group3]
  rw [dif_neg h]

/-- Helper: the ten digit values render as digit characters. -/
theorem digitChar_isDigit (k : ℕ) (h : k < 10) : (Nat.digitChar k).isDigit = true := by
  interval_cases k <;> decide

/-- Helper: every character produced by `digitsRevChars` is a digit. -/
theorem digitsRevChars_digits (n : ℕ) : ∀ c ∈ digitsRevChars n, c.isDigit = true := by
  induction n using digitsRevChars.induct with
  | case1 n h =>
      intro c hc
      rw [digitsRevChars, dif_pos h] at hc
      simp at hc
      subst hc
      exact digitChar_isDigit n h
  | case2 n h ih =>
      intro c hc
      rw [digitsRevChars, dif_neg h] at hc
      rcases List.mem_cons.mp hc with hh | hh
      · subst hh
        exact digitChar_isDigit _ (Nat.mod_lt _ (by omega))
      · exact ih c hh

/-- Helper: `group3` emits only the input's digits and commas. -/
theorem group3_chars (l : List Char) (hd : ∀ c ∈ l, c.isDigit = true) :
    ∀ c ∈ group3 l, c.isDigit = true ∨ c = ',' := by
  induction l using group3.induct with
  | case1 l h =>
      rw [group3_eq_small l h]
      exact fun c hc => Or.inl (hd c hc)
  | case2 l h ih =>
      rw [group3_eq_large l h]
      intro c hc
      rcases List.mem_append.mp hc with hc | hc
      · exact Or.inl (hd c (List.take_subset 3 l hc))
      · rcases List.mem_cons.mp hc with hc | hc
        · exact Or.inr hc
        · exact ih (fun c2 hc2 => hd c2 (List.drop_subset 3 l hc2)) c hc

/-- Helper: grouping never shortens a list. -/
theorem group3_length_ge (l : List Char) : l.length ≤ (group3 l).length := by
  induction l using group3.induct with
  | case1 l h => rw [group3_eq_small l h]
  | case2 l h ih =>
      rw [group3_eq_large l h]
      simp only [List.length_append, List.length_take, List.length_cons]
      have h2 := List.length_drop 3 l
      omega

/-- Helper: in `group3` output (least significant first) the commas sit
exactly at the positions congruent to 3 mod 4, never last. -/
theorem group3_commas (l : List Char) (hd : ∀ c ∈ l, c.isDigit = true) :
    ∀ i, ∀ h : i < (group3 l).length,
      ((group3 l)[i] = ',' ↔ (i % 4 = 3 ∧ i + 1 < (group3 l).length)) := by
  induction l using group3.induct with
  | case1 l h =>
      rw [group3_eq_small l h]
      intro i hi
      constructor
      · intro hc
        have := hd _ (List.getElem_mem hi)
        rw [hc] at this
        exact absurd this (by decide)
      · intro ⟨h3, h4⟩
        omega
  | case2 l h ih =>
      have hlen3 : (l.take 3).length = 3 := by
        rw [List.length_take]
        omega
      have hrest := group3_length_ge (l.drop 3)
      have hdlen := List.length_drop 3 l
      intro i hi
      simp only [group3_eq_large l h] at hi ⊢
      have hlen : (l.take 3 ++ ',' :: group3 (l.drop 3)).length =
          4 + (group3 (l.drop 3)).length := by
        simp only [List.length_append, List.length_cons, hlen3]
        omega
      have hpos : 1 ≤ (group3 (l.drop 3)).length := by omega
      by_cases h3 : i < 3
      · have hiL : i < (l.take 3).length := by omega
        rw [List.getElem_append_left hiL]
        constructor
        · intro hc
          have := hd _ (List.take_subset 3 l (List.getElem_mem hiL))
          rw [hc] at this
          exact absurd this (by decide)
        · intro ⟨hm, _⟩
          omega
      · by_cases h4 : i = 3
        · subst h4
          have hge : (l.take 3).length ≤ 3 := by omega
          rw [List.getElem_append_right hge]
          simp only [hlen3, Nat.sub_self, List.getElem_cons_zero]
          constructor
          · intro _
            exact ⟨trivial, by omega⟩
          · intro _
            trivial
        · have hge : (l.take 3).length ≤ i := by omega
          rw [List.getElem_append_right hge]
          simp only [hlen3]
          have hsub : i - 3 = (i - 4) + 1 := by omega
          simp only [hsub, List.getElem_cons_succ]
          have hi2 : i - 4 < (group3 (l.drop 3)).length := by omega
          rw [ih (fun c2 hc2 => hd c2 (List.drop_subset 3 l hc2)) (i - 4) hi2]
          omega

/-- Helper: the integer formatter emits only digits and commas. -/
theorem natComma_chars (n : ℕ) : ∀ c ∈ (natComma n).data, c.isDigit = true ∨ c = ',' := by
  intro c hc
  have hdat : (natComma n).data = (group3 (digitsRevChars n)).reverse := rfl
  rw [hdat, List.mem_reverse] at hc
  exact group3_chars _ (digitsRevChars_digits n) c hc

/-- Helper: the integer formatter's output, read from the right, is the
grouped digit list. -/
theorem natComma_rev (n : ℕ) : (natComma n).data.reverse = group3 (digitsRevChars n) :=
  List.reverse_reverse _

/-- C9: `format_currency` (a total function, so it never raises) renders a
whole number as the glyph, an optional sign, and the comma-grouped digits
with no decimal point; a non-whole number gains a dot followed by exactly
two digit characters; an unparseable text renders as the glyph followed by
the raw input, and a parseable text renders as its numeric value. -/
theorem c9_format_currency (q : ℚ) (s : String) :
    (q.den = 1 →
      format_currency (.num q) =
        "৳" ++ ((if q.num < 0 then "-" else "") ++ natComma q.num.natAbs) ∧
      (∀ c ∈ (natComma q.num.natAbs).data, c.isDigit = true ∨ c = ',') ∧
      '.' ∉ (natComma q.num.natAbs).data ∧
      commasEvery3 (natComma q.num.natAbs).data.reverse) ∧
    (q.den ≠ 1 →
      ∃ pre d1 d2,
        format_currency (.num q) = "৳" ++ ((pre ++ ".") ++ String.mk [d1, d2]) ∧
        '.' ∉ pre.data ∧ d1.isDigit = true ∧ d2.isDigit = true) ∧
    (parseFloat s = none → format_currency (.str s) = "৳" ++ s) ∧
    (∀ q2, parseFloat s = some (.finite q2) →
      format_currency (.str s) = format_currency (.num q2)) ∧
    (parseFloat s = some .pinf → format_currency (.str s) = "৳" ++ "inf") ∧
    (parseFloat s = some .ninf → format_currency (.str s) = "৳" ++ "-inf") ∧
    (parseFloat s = some .nan → format_currency (.str s) = "৳" ++ "nan") := by
  refine ⟨fun hden => ⟨?_, natComma_chars _, ?_, ?_⟩, fun hden => ?_, fun hn => ?_,
    fun q2 hq2 => ?_, fun hq2 => ?_, fun hq2 => ?_, fun hq2 => ?_⟩
  · show renderNum q = _
    unfold renderNum intComma
    rw [if_pos hden]
  · intro hmem
    rcases natComma_chars _ '.' hmem with h | h <;> exact absurd h (by decide)
  · rw [natComma_rev]
    exact fun i h => group3_commas (digitsRevChars q.num.natAbs) (digitsRevChars_digits _) i h
  · refine ⟨(if q < 0 then "-" else "") ++ natComma ((pyRound (q * 100)).natAbs / 100),
      Nat.digitChar ((pyRound (q * 100)).natAbs % 100 / 10),
      Nat.digitChar ((pyRound (q * 100)).natAbs % 10), ?_, ?_, ?_, ?_⟩
    · show renderNum q = _
      unfold renderNum
      rw [if_neg hden]
      rfl
    · intro hmem
      rw [String.data_append, List.mem_append] at hmem
      rcases hmem with h | h
      · by_cases hq : q < 0 <;> simp [hq] at h
      · rcases natComma_chars _ '.' h with h2 | h2 <;> exact absurd h2 (by decide)
    · exact digitChar_isDigit _ (by omega)
    · exact digitChar_isDigit _ (by omega)
  · unfold format_currency
    simp only [hn]
  · unfold format_currency
    simp only [hq2]
    rfl
  · unfold format_currency
    simp only [hq2]
    rfl
  · unfold format_currency
    simp only [hq2]
    rfl
  · unfold format_currency
    simp only [hq2]
    rfl

/-- C9 witness: the theorem applied to a seven-digit whole number, the
fraction 5/2, the unparseable text " ", the underscore-grouped numeric text
"1_000", the overflowing text "1e309", the negative "-Infinity", and
"nan". -/
theorem c9_format_currency_witness :
    (format_currency (.num 1234567) =
        "৳" ++ ((if (1234567 : ℚ).num < 0 then "-" else "") ++
          natComma (1234567 : ℚ).num.natAbs) ∧
      (∀ c ∈ (natComma (1234567 : ℚ).num.natAbs).data, c.isDigit = true ∨ c = ',') ∧
      '.' ∉ (natComma (1234567 : ℚ).num.natAbs).data ∧
      commasEvery3 (natComma (1234567 : ℚ).num.natAbs).data.reverse) ∧
    (∃ pre d1 d2,
        format_currency (.num (mkRat 5 2)) = "৳" ++ ((pre ++ ".") ++ String.mk [d1, d2]) ∧
        '.' ∉ pre.data ∧ d1.isDigit = true ∧ d2.isDigit = true) ∧
    format_currency (.str " ") = "৳" ++ " " ∧
    format_currency (.str "1_000") = format_currency (.num 1000) ∧
    format_currency (.str "1e309") = "৳" ++ "inf" ∧
    format_currency (.str "-Infinity") = "৳" ++ "-inf" ∧
    format_currency (.str "nan") = "৳" ++ "nan" :=
  ⟨(c9_format_currency 1234567 "x").1 rfl,
   (c9_format_currency (mkRat 5 2) "x").2.1 (by decide),
   (c9_format_currency 0 " ").2.2.1 (by decide),
   (c9_format_currency 0 "1_000").2.2.2.1 1000 (by decide),
   (c9_format_currency 0 "1e309").2.2.2.2.1 (by decide),
   (c9_format_currency 0 "-Infinity").2.2.2.2.2.1 (by decide),
   (c9_format_currency 0 "nan").2.2.2.2.2.2 (by decide)⟩
